import Mathlib

/-!
Verification development for the adaptive control subsystem of the
tcp-agent-platform repository (`src/ai/models/resource_allocator.py` and
`src/ai/models/scheduling_optimizer.py`).

Python floats are modelled as exact rationals (`ℚ`); where a claim is about
IEEE NaN propagation, a dedicated value type `NpVal` with an explicit NaN
element refines the model.  Calls into external libraries (torch gradient
steps, the random number generator) are modelled as explicit parameters.
-/

namespace ResourceAllocationEnv

/-- Source: `np.clip(x, 0, 1)` on a finite float:
`minimum(maximum(x, 0), 1)`. -/
def clip01 (x : ℚ) : ℚ := min (max x 0) 1

/-- Source: `action = np.clip(action[:len(self.agents)], 0, 1)`
(`ResourceAllocationEnv.step`, line 86): truncate the action vector to the
number of active agents and clip each component to `[0, 1]`. -/
def clipAction (action : List ℚ) (numAgents : Nat) : List ℚ :=
  (action.take numAgents).map clip01

/-- Source: `if np.sum(action) > 0: action = action / np.sum(action)`
(`ResourceAllocationEnv.step`, lines 87-88): rescale the clipped action to
sum to 1 when its sum is strictly positive, otherwise leave it unchanged. -/
def normalizeAction (action : List ℚ) (numAgents : Nat) : List ℚ :=
  if 0 < (clipAction action numAgents).sum then
    (clipAction action numAgents).map (· / (clipAction action numAgents).sum)
  else clipAction action numAgents

/-- Source: `allocated_bandwidth = action[i] * self.total_bandwidth_mbps`
(`ResourceAllocationEnv.step`, line 94), for every agent slot. -/
def allocatedBandwidths (action : List ℚ) (numAgents : Nat) (total : ℚ) :
    List ℚ :=
  (normalizeAction action numAgents).map (· * total)

theorem clip01_nonneg (x : ℚ) : 0 ≤ clip01 x := by
  simp [clip01]

theorem clip01_le_one (x : ℚ) : clip01 x ≤ 1 := by
  simp [clip01]

theorem clipAction_nonneg (action : List ℚ) (n : Nat) :
    ∀ w ∈ clipAction action n, 0 ≤ w := by
  intro w hw
  rcases List.mem_map.mp hw with ⟨x, _, rfl⟩
  exact clip01_nonneg x

theorem clipAction_le_one (action : List ℚ) (n : Nat) :
    ∀ w ∈ clipAction action n, w ≤ 1 := by
  intro w hw
  rcases List.mem_map.mp hw with ⟨x, _, rfl⟩
  exact clip01_le_one x

theorem sum_map_div (l : List ℚ) (s : ℚ) :
    (l.map (· / s)).sum = l.sum / s := by
  induction l with
  | nil => simp
  | cons x xs ih => simp [ih, add_div]

/--
C1: the simulated environment's step truncates the action vector to the
number of active agents and clips each component to `[0,1]`; the resulting
normalized weights all lie in `[0,1]`; when the clipped components' sum is
strictly positive they are rescaled to sum to exactly 1; and when the
clipped action is all zeros every agent receives zero bandwidth allocation
(the division is never taken, so no division by zero occurs).
-/
theorem step_normalization_sound (action : List ℚ) (n : Nat) (total : ℚ) :
    (normalizeAction action n).length = min n action.length ∧
    (∀ w ∈ normalizeAction action n, 0 ≤ w ∧ w ≤ 1) ∧
    (0 < (clipAction action n).sum → (normalizeAction action n).sum = 1) ∧
    ((∀ w ∈ clipAction action n, w = 0) →
      ∀ b ∈ allocatedBandwidths action n total, b = 0) := by
  refine ⟨?_, ?_, ?_, ?_⟩
  · unfold normalizeAction
    split <;> simp [clipAction, Nat.min_comm]
  · intro w hw
    unfold normalizeAction at hw
    split at hw
    · rename_i hpos
      rcases List.mem_map.mp hw with ⟨x, hx, rfl⟩
      have hx0 : 0 ≤ x := clipAction_nonneg action n x hx
      have hxs : x ≤ (clipAction action n).sum :=
        List.single_le_sum (clipAction_nonneg action n) x hx
      constructor
      · exact div_nonneg hx0 (le_of_lt hpos)
      · exact (div_le_one hpos).mpr hxs
    · exact ⟨clipAction_nonneg action n w hw, clipAction_le_one action n w hw⟩
  · intro hpos
    unfold normalizeAction
    rw [if_pos hpos, sum_map_div]
    exact div_self (ne_of_gt hpos)
  · intro hzero b hb
    have hsum : (clipAction action n).sum = 0 := List.sum_eq_zero hzero
    unfold allocatedBandwidths normalizeAction at hb
    rw [hsum] at hb
    simp only [lt_self_iff_false, if_false] at hb
    rcases List.mem_map.mp hb with ⟨x, hx, rfl⟩
    rw [hzero x hx, zero_mul]

/-- Witness for C1 at a concrete action vector. -/
theorem step_normalization_sound_witness :
    0 < (clipAction [1/2, 1/2, 1/2, 1/2] 3).sum ∧
    (normalizeAction [1/2, 1/2, 1/2, 1/2] 3).sum = 1 :=
  ⟨by norm_num [clipAction, clip01], by
    exact (step_normalization_sound [1/2, 1/2, 1/2, 1/2] 3 1000).2.2.1
      (by norm_num [clipAction, clip01])⟩

end ResourceAllocationEnv

/-- A numpy floating-point value, for claims about NaN propagation:
either a finite value (modelled exactly as a rational) or NaN. -/
inductive NpVal where
  | num (q : ℚ)
  | nan
deriving DecidableEq

namespace NpVal

/-- Source: `np.maximum` on floats: NaN operands propagate. -/
def nmax : NpVal → NpVal → NpVal
  | num a, num b => num (max a b)
  | _, _ => nan

/-- Source: `np.minimum` on floats: NaN operands propagate. -/
def nmin : NpVal → NpVal → NpVal
  | num a, num b => num (min a b)
  | _, _ => nan

/-- Float multiplication: NaN operands propagate. -/
def nmul : NpVal → NpVal → NpVal
  | num a, num b => num (a * b)
  | _, _ => nan

/-- Float addition: NaN operands propagate. -/
def nadd : NpVal → NpVal → NpVal
  | num a, num b => num (a + b)
  | _, _ => nan

/-- Float division: NaN operands propagate; division by zero is also
mapped to NaN (the code only divides by sums checked to be positive). -/
def ndiv : NpVal → NpVal → NpVal
  | num a, num b => if b = 0 then nan else num (a / b)
  | _, _ => nan

/-- The Python comparison `x > 0` on a float: `False` when `x` is NaN. -/
def gtZero : NpVal → Bool
  | num q => decide (0 < q)
  | nan => false

end NpVal

/-!
NaN-aware refinement of the environment's action processing
(`ResourceAllocationEnv.step`, lines 86-94): the same computation as
`ResourceAllocationEnv` above, but over `NpVal` so that the behaviour of
`np.clip`, `np.sum` and the arithmetic on NaN inputs is modelled.
-/
namespace ResourceAllocationEnvNp

/-- Source: `np.clip(x, 0, 1)` is `minimum(maximum(x, 0), 1)`: NaN propagates
through `np.clip` unchanged. -/
def clip01 (x : NpVal) : NpVal :=
  NpVal.nmin (NpVal.nmax x (NpVal.num 0)) (NpVal.num 1)

/-- Source: `action = np.clip(action[:len(self.agents)], 0, 1)` over floats. -/
def clipAction (action : List NpVal) (numAgents : Nat) : List NpVal :=
  (action.take numAgents).map clip01

/-- Source: `np.sum` over floats: NaN in the list makes the sum NaN. -/
def npSum (l : List NpVal) : NpVal := l.foldr NpVal.nadd (NpVal.num 0)

/-- Source: `if np.sum(action) > 0: action = action / np.sum(action)` over
floats; the comparison is `False` for a NaN sum, so no rescale happens. -/
def normalizeAction (action : List NpVal) (numAgents : Nat) : List NpVal :=
  if NpVal.gtZero (npSum (clipAction action numAgents)) then
    (clipAction action numAgents).map
      (fun w => NpVal.ndiv w (npSum (clipAction action numAgents)))
  else clipAction action numAgents

/-- Source: `allocated_bandwidth = action[i] * self.total_bandwidth_mbps`
over floats, per agent slot. -/
def allocatedBandwidths (action : List NpVal) (numAgents : Nat)
    (total : ℚ) : List NpVal :=
  (normalizeAction action numAgents).map
    (fun w => NpVal.nmul w (NpVal.num total))

theorem npSum_finite (l : List NpVal)
    (h : ∀ v ∈ l, ∃ q : ℚ, v = NpVal.num q) :
    ∃ s : ℚ, npSum l = NpVal.num s := by
  induction l with
  | nil => exact ⟨0, rfl⟩
  | cons x xs ih =>
    obtain ⟨q, hq⟩ := h x (List.mem_cons_self x xs)
    obtain ⟨s, hs⟩ := ih (fun v hv => h v (List.mem_cons_of_mem x hv))
    exact ⟨q + s, by simp [npSum] at hs ⊢; rw [hq, hs]; rfl⟩

/--
C9 counterexample: a NaN action component is not clamped by
`np.clip` — it passes through unchanged, the NaN sum makes the rescale
guard `False`, and the NaN is multiplied into the agent's bandwidth
allocation.  For the single-agent action `[NaN]`, the normalized action
and the allocated bandwidth are both `[NaN]`.
-/
theorem step_nan_propagates :
    clip01 NpVal.nan = NpVal.nan ∧
    normalizeAction [NpVal.nan] 1 = [NpVal.nan] ∧
    allocatedBandwidths [NpVal.nan] 1 1000 = [NpVal.nan] :=
  ⟨rfl, rfl, rfl⟩

/--
C9 amended: for action vectors whose components are finite floats, every
component is clamped into `[0,1]` before use — in particular any negative
component becomes 0 — and only finite values reach the bandwidth
allocation; a NaN component, however, passes through `np.clip` unchanged
and propagates into the allocation of that step.
-/
theorem step_clamps_finite_components (action : List NpVal) (n : Nat)
    (total : ℚ) (hfin : ∀ v ∈ action, ∃ q : ℚ, v = NpVal.num q) :
    (∀ w ∈ clipAction action n,
      ∃ q : ℚ, w = NpVal.num q ∧ 0 ≤ q ∧ q ≤ 1) ∧
    (∀ b ∈ allocatedBandwidths action n total, ∃ q : ℚ, b = NpVal.num q) ∧
    (∀ x : ℚ, x ≤ 0 → clip01 (NpVal.num x) = NpVal.num 0) ∧
    clip01 NpVal.nan = NpVal.nan := by
  have hclip : ∀ w ∈ clipAction action n,
      ∃ q : ℚ, w = NpVal.num q ∧ 0 ≤ q ∧ q ≤ 1 := by
    intro w hw
    rcases List.mem_map.mp hw with ⟨x, hx, rfl⟩
    obtain ⟨q, rfl⟩ := hfin x (List.mem_of_mem_take hx)
    refine ⟨min (max q 0) 1, rfl, ?_, ?_⟩
    · simp
    · simp
  refine ⟨hclip, ?_, ?_, rfl⟩
  · intro b hb
    rcases List.mem_map.mp hb with ⟨w, hw, rfl⟩
    unfold normalizeAction at hw
    obtain ⟨s, hs⟩ := npSum_finite (clipAction action n)
      (fun v hv => (hclip v hv).imp (fun q hq => hq.1))
    rw [hs] at hw
    by_cases hpos : (0 : ℚ) < s
    · rw [if_pos (by simp [NpVal.gtZero, hpos])] at hw
      rcases List.mem_map.mp hw with ⟨v, hv, rfl⟩
      obtain ⟨q, rfl, _, _⟩ := hclip v hv
      exact ⟨q / s * total, by simp [NpVal.ndiv, NpVal.nmul, ne_of_gt hpos]⟩
    · rw [if_neg (by simp [NpVal.gtZero, hpos])] at hw
      obtain ⟨q, rfl, _, _⟩ := hclip _ hw
      exact ⟨q * total, rfl⟩
  · intro x hx
    unfold clip01
    rw [show NpVal.nmax (NpVal.num x) (NpVal.num 0) = NpVal.num 0 by
      simp [NpVal.nmax, max_eq_right hx]]
    simp [NpVal.nmin]

/-- Witness for the amended C9: a negative finite component is clamped to
0, while a NaN component passes through the clip unchanged. -/
theorem step_clamps_finite_components_witness :
    clip01 (NpVal.num (-5)) = NpVal.num 0 ∧ clip01 NpVal.nan = NpVal.nan :=
  ⟨(step_clamps_finite_components [] 0 0 (by simp)).2.2.1 (-5)
      (by norm_num),
    (step_clamps_finite_components [] 0 0 (by simp)).2.2.2⟩

end ResourceAllocationEnvNp

namespace ResourceAllocator

/--
`ResourceAllocator.allocate_resources`, lines 298-311: the per-agent
bandwidth derivation.  For each agent index `i < len(agents)`, if
`i < len(action)` an allocation with
`bandwidth_mbps = action[i] * total_bandwidth` is appended.  The raw actor
output `action` (obtained from `get_action(state, deterministic=True)`) is
used as-is: no clipping and no rescaling is applied to it here.
-/
def bandwidthAllocations (numAgents : Nat) (action : List ℚ) (total : ℚ) :
    List ℚ :=
  (List.range numAgents).filterMap (fun i => (action[i]?).map (· * total))

theorem bandwidthAllocations_eq_take (numAgents : Nat) (action : List ℚ)
    (total : ℚ) :
    bandwidthAllocations numAgents action total =
      (action.take numAgents).map (· * total) := by
  induction numAgents with
  | zero => simp [bandwidthAllocations]
  | succ n ih =>
    unfold bandwidthAllocations at ih ⊢
    rw [List.range_succ, List.filterMap_append, ih]
    rcases Nat.lt_or_ge n action.length with h | h
    · rw [List.take_succ, List.getElem?_eq_getElem h, List.map_append]
      simp [List.getElem?_eq_getElem h]
    · rw [List.take_of_length_le h, List.take_of_length_le (le_trans h (Nat.le_succ n))]
      simp [List.getElem?_eq_none h]

/--
C3 counterexample: with 3 agents, raw actor output `[1/2, 1/2, 1/2]` and
total bandwidth 1000, `allocate_resources` computes bandwidths
`[500, 500, 500]`, whereas the environment's normalization of the same
actor output yields weights `[1/3, 1/3, 1/3]` and bandwidths
`[1000/3, 1000/3, 1000/3]`: `allocate_resources` does not apply the
environment's normalization.
-/
theorem allocate_skips_env_normalization :
    bandwidthAllocations 3 [1/2, 1/2, 1/2] 1000 = [500, 500, 500] ∧
    (ResourceAllocationEnv.normalizeAction [1/2, 1/2, 1/2] 3).map (· * 1000)
      = [1000/3, 1000/3, 1000/3] ∧
    bandwidthAllocations 3 [1/2, 1/2, 1/2] 1000 ≠
      (ResourceAllocationEnv.normalizeAction [1/2, 1/2, 1/2] 3).map
        (· * 1000) := by
  refine ⟨?_, ?_, ?_⟩
  · rw [bandwidthAllocations_eq_take]; norm_num
  · norm_num [ResourceAllocationEnv.normalizeAction,
      ResourceAllocationEnv.clipAction, ResourceAllocationEnv.clip01]
  · rw [bandwidthAllocations_eq_take]
    norm_num [ResourceAllocationEnv.normalizeAction,
      ResourceAllocationEnv.clipAction, ResourceAllocationEnv.clip01]

/--
C3 amended: `allocate_resources` derives per-agent bandwidth directly from
the raw actor output (`bandwidth_mbps = action[i] * total_bandwidth` for
the first `len(agents)` components), applying no normalization; the
resulting bandwidths coincide with the environment-normalized ones only in
special cases, e.g. when the truncated actor output lies in `[0,1]`
componentwise (which the sigmoid guarantees) and already sums to 1.
-/
theorem allocate_uses_raw_action (numAgents : Nat) (action : List ℚ)
    (total : ℚ)
    (hbound : ∀ w ∈ action.take numAgents, 0 ≤ w ∧ w ≤ 1)
    (hsum : (action.take numAgents).sum = 1) :
    bandwidthAllocations numAgents action total =
      (action.take numAgents).map (· * total) ∧
    bandwidthAllocations numAgents action total =
      (ResourceAllocationEnv.normalizeAction action numAgents).map
        (· * total) := by
  have hclip : ResourceAllocationEnv.clipAction action numAgents =
      action.take numAgents := by
    unfold ResourceAllocationEnv.clipAction
    have hpt : ∀ w ∈ action.take numAgents,
        ResourceAllocationEnv.clip01 w = id w := by
      intro w hw
      have hb := hbound w hw
      unfold ResourceAllocationEnv.clip01
      rw [max_eq_left hb.1, min_eq_left hb.2]; rfl
    rw [List.map_congr_left hpt, List.map_id]
  refine ⟨bandwidthAllocations_eq_take numAgents action total, ?_⟩
  rw [bandwidthAllocations_eq_take]
  unfold ResourceAllocationEnv.normalizeAction
  rw [hclip, hsum, if_pos one_pos]
  simp

/-- Witness for the amended C3 at a concrete actor output summing to 1. -/
theorem allocate_uses_raw_action_witness :
    bandwidthAllocations 2 [1/4, 3/4] 1000 =
      (ResourceAllocationEnv.normalizeAction [1/4, 3/4] 2).map (· * 1000) :=
  (allocate_uses_raw_action 2 [1/4, 3/4] 1000
    (by
      intro w hw
      simp only [List.take_succ_cons, List.take_zero, List.mem_cons,
        List.not_mem_nil, or_false] at hw
      rcases hw with rfl | rfl <;> norm_num)
    (by norm_num [List.take_succ_cons])).2

/-- Source: `np.mean` of a list of floats: sum divided by length. -/
noncomputable def mean (l : List ℝ) : ℝ := l.sum / l.length

/-- Source: `np.std` of a list of floats: population standard deviation
(square root of the mean of squared deviations, `ddof = 0`). -/
noncomputable def std (l : List ℝ) : ℝ :=
  Real.sqrt ((l.map (fun x => (x - mean l) ^ 2)).sum / l.length)

/--
`ResourceAllocator._calculate_fairness_score`, lines 371-383:
return 1.0 when at most one allocation; return 1.0 when the mean
bandwidth is zero; otherwise return
`max(0, 1 - np.std(bandwidths) / np.mean(bandwidths))`.
-/
noncomputable def fairnessScore (bandwidths : List ℝ) : ℝ :=
  if bandwidths.length ≤ 1 then 1
  else if mean bandwidths = 0 then 1
  else max 0 (1 - std bandwidths / mean bandwidths)

theorem mean_neg_example : mean [-1, -3] = -2 := by
  unfold mean; norm_num

theorem std_neg_example : std [-1, -3] = 1 := by
  unfold std
  rw [mean_neg_example]
  norm_num [Real.sqrt_one]

/--
C7 counterexample: on the allocation list `[-1, -3]` (mean `-2`, standard
deviation `1`), the fairness score is `max(0, 1 - 1/(-2)) = 3/2 > 1`, so
the score does not lie in `[0, 1]` for every input list.
-/
theorem fairness_above_one_counterexample :
    fairnessScore [-1, -3] = 3 / 2 ∧ (1 : ℝ) < fairnessScore [-1, -3] := by
  have h : fairnessScore [-1, -3] = 3 / 2 := by
    unfold fairnessScore
    rw [if_neg (by norm_num), if_neg (by rw [mean_neg_example]; norm_num),
      mean_neg_example, std_neg_example]
    rw [show (1 : ℝ) - 1 / (-2) = 3 / 2 by norm_num]
    rw [max_eq_right (by norm_num : (0 : ℝ) ≤ 3 / 2)]
  exact ⟨h, by rw [h]; norm_num⟩

/--
C7 amended: for every list of nonnegative allocations the fairness score
lies in `[0, 1]`; it equals 1.0 when there is at most one allocation, when
all allocated bandwidths are identical, and when the mean bandwidth is
zero (no NaN: the zero-mean case returns the neutral score 1.0); otherwise
it equals `max(0, 1 - std/mean)`.  (On lists with negative entries the
score can exceed 1, see the counterexample.)
-/
theorem fairness_score_sound (l : List ℝ) (hpos : ∀ x ∈ l, 0 ≤ x) :
    (0 ≤ fairnessScore l ∧ fairnessScore l ≤ 1) ∧
    (l.length ≤ 1 → fairnessScore l = 1) ∧
    ((∀ x ∈ l, ∀ y ∈ l, x = y) → fairnessScore l = 1) ∧
    (mean l = 0 → fairnessScore l = 1) ∧
    (1 < l.length → mean l ≠ 0 →
      fairnessScore l = max 0 (1 - std l / mean l)) := by
  have hmean0 : 0 ≤ mean l :=
    div_nonneg (List.sum_nonneg hpos) (Nat.cast_nonneg l.length)
  refine ⟨?_, ?_, ?_, ?_, ?_⟩
  · unfold fairnessScore
    split
    · norm_num
    · split
      · norm_num
      · rename_i hlen hm
        have hmpos : 0 < mean l := lt_of_le_of_ne hmean0 (Ne.symm hm)
        have hcv : 0 ≤ std l / mean l :=
          div_nonneg (Real.sqrt_nonneg _) (le_of_lt hmpos)
        constructor
        · exact le_max_left 0 _
        · exact max_le (by norm_num) (by linarith)
  · intro h
    unfold fairnessScore
    rw [if_pos h]
  · intro hEq
    unfold fairnessScore
    by_cases hlen : l.length ≤ 1
    · rw [if_pos hlen]
    · rw [if_neg hlen]
      have hne : l ≠ [] := by
        intro h; rw [h] at hlen; simp at hlen
      obtain ⟨a, ha⟩ := List.exists_mem_of_ne_nil l hne
      have hall : ∀ x ∈ l, x = a := fun x hx => hEq x hx a ha
      have hlen0 : (l.length : ℝ) ≠ 0 := by
        simp [List.length_eq_zero.not.mpr hne]
      have hmean : mean l = a := by
        unfold mean
        rw [List.sum_eq_card_nsmul l a hall, nsmul_eq_mul,
          mul_div_cancel_left₀ a hlen0]
      by_cases hm : mean l = 0
      · rw [if_pos hm]
      · rw [if_neg hm]
        have hstd : std l = 0 := by
          unfold std
          have hz : ∀ x ∈ l.map (fun x => (x - mean l) ^ 2), x = 0 := by
            intro x hx
            rcases List.mem_map.mp hx with ⟨y, hy, rfl⟩
            rw [hmean, hall y hy, sub_self]
            ring
          rw [List.sum_eq_zero hz, zero_div, Real.sqrt_zero]
        rw [hstd, zero_div, sub_zero]
        exact max_eq_right (by norm_num)
  · intro hm
    unfold fairnessScore
    by_cases hlen : l.length ≤ 1
    · rw [if_pos hlen]
    · rw [if_neg hlen, if_pos hm]
  · intro hlen hm
    unfold fairnessScore
    rw [if_neg (by omega), if_neg hm]

/-- Witness for the amended C7 on the identical nonnegative list `[2, 2]`. -/
theorem fairness_score_sound_witness :
    fairnessScore [2, 2] = 1 ∧ 0 ≤ fairnessScore [2, 2] := by
  have h := fairness_score_sound [2, 2] (by
    intro x hx
    rcases List.mem_cons.mp hx with rfl | hx
    · norm_num
    · rcases List.mem_cons.mp hx with rfl | hx
      · norm_num
      · simp at hx)
  refine ⟨h.2.2.1 ?_, h.1.1⟩
  intro x hx y hy
  rcases List.mem_cons.mp hx with rfl | hx <;>
    rcases List.mem_cons.mp hy with rfl | hy <;>
      simp_all

end ResourceAllocator

namespace SchedulingOptimizer

/-- An `Experience` record (`scheduling_optimizer.py`, line 24):
`(state, action, reward, next_state, done)`. -/
structure Experience where
  state : List ℚ
  action : Nat
  reward : ℚ
  nextState : List ℚ
  done : Bool
deriving DecidableEq

/-- Source: `ReplayBuffer` (lines 48-63): `self.buffer = deque(maxlen=capacity)`.
The front of the list is the oldest entry; `sample` draws from the
current contents without removing, so an experience is retrievable by
sampling exactly when it is a member of `buffer`. -/
structure ReplayBuffer (α : Type) where
  capacity : Nat
  buffer : List α
deriving DecidableEq

/-- Source: `ReplayBuffer.push` is `deque.append` on a `deque(maxlen=capacity)`:
the new entry goes to the back and only the last `capacity` entries are
kept, the front (oldest) being discarded on overflow. -/
def ReplayBuffer.push {α : Type} (b : ReplayBuffer α) (e : α) :
    ReplayBuffer α :=
  { b with
    buffer := (b.buffer ++ [e]).drop ((b.buffer ++ [e]).length - b.capacity) }

/-- Source: `ReplayBuffer(capacity=c)`: a fresh empty buffer. -/
def ReplayBuffer.make (α : Type) (c : Nat) : ReplayBuffer α := ⟨c, []⟩

/-- Pushing a list of experiences in order. -/
def ReplayBuffer.pushAll {α : Type} (b : ReplayBuffer α) (es : List α) :
    ReplayBuffer α :=
  es.foldl ReplayBuffer.push b

theorem ReplayBuffer.capacity_push {α : Type} (b : ReplayBuffer α) (e : α) :
    (b.push e).capacity = b.capacity := rfl

theorem ReplayBuffer.pushAll_append {α : Type} (b : ReplayBuffer α)
    (es : List α) (e : α) :
    b.pushAll (es ++ [e]) = (b.pushAll es).push e := by
  unfold ReplayBuffer.pushAll
  rw [List.foldl_append]
  rfl

theorem ReplayBuffer.capacity_pushAll {α : Type} (b : ReplayBuffer α)
    (es : List α) : (b.pushAll es).capacity = b.capacity := by
  induction es generalizing b with
  | nil => rfl
  | cons x xs ih =>
    rw [show b.pushAll (x :: xs) = (b.push x).pushAll xs from rfl,
      ih (b.push x), ReplayBuffer.capacity_push]

theorem ReplayBuffer.buffer_pushAll {α : Type} (c : Nat) (es : List α) :
    ((ReplayBuffer.make α c).pushAll es).buffer =
      es.drop (es.length - c) := by
  induction es using List.reverseRecOn with
  | nil => simp [ReplayBuffer.pushAll, ReplayBuffer.make]
  | append_singleton es e ih =>
    have hcap : ((ReplayBuffer.make α c).pushAll es).capacity = c :=
      ReplayBuffer.capacity_pushAll _ es
    rw [ReplayBuffer.pushAll_append]
    unfold ReplayBuffer.push
    rw [ih, hcap]
    have hlen : (es.drop (es.length - c)).length =
        es.length - (es.length - c) := List.length_drop _ _
    rcases Nat.lt_or_ge es.length c with h | h
    · have h1 : es.length - c = 0 := by omega
      have h2 : (es ++ [e]).length - c = 0 := by simp; omega
      simp [h1, h2]
    · rcases Nat.eq_zero_or_pos c with hc | hc
      · subst hc
        simp
      · have h1 : (es.drop (es.length - c) ++ [e]).length - c = 1 := by
          rw [List.length_append, hlen]
          simp; omega
        rw [h1]
        have h2 : (1 : Nat) ≤ (es.drop (es.length - c)).length := by omega
        rw [List.drop_append_of_le_length h2, List.drop_drop]
        have h3 : (es ++ [e]).length - c = (es.length - c) + 1 := by
          simp; omega
        rw [h3, List.drop_append_of_le_length (by omega)]

/--
C5: starting from an empty Experience Store of capacity `c`, the size
never exceeds `c` for any sequence of pushes; after pushing `c + 1`
experiences `e0 :: rest`, the buffer holds exactly `rest` — precisely the
oldest entry `e0` was evicted, in strict FIFO order — so the
first-inserted experience (if not re-inserted later) is no longer
retrievable by sampling.
-/
theorem replay_capacity_and_fifo (α : Type) (c : Nat) (e0 : α)
    (rest : List α) (hlen : (e0 :: rest).length = c + 1)
    (hnotin : e0 ∉ rest) :
    (∀ fs : List α,
      (((ReplayBuffer.make α c).pushAll fs).buffer).length ≤ c) ∧
    ((ReplayBuffer.make α c).pushAll (e0 :: rest)).buffer = rest ∧
    e0 ∉ ((ReplayBuffer.make α c).pushAll (e0 :: rest)).buffer := by
  have hdrop : ((ReplayBuffer.make α c).pushAll (e0 :: rest)).buffer =
      rest := by
    rw [ReplayBuffer.buffer_pushAll]
    have h1 : (e0 :: rest).length - c = 1 := by omega
    rw [h1, List.drop_one, List.tail_cons]
  refine ⟨?_, hdrop, ?_⟩
  · intro fs
    rw [ReplayBuffer.buffer_pushAll, List.length_drop]
    omega
  · rw [hdrop]
    exact hnotin

/-- Witness for C5 with capacity 2 and three distinct pushes. -/
theorem replay_capacity_and_fifo_witness :
    ((ReplayBuffer.make ℕ 2).pushAll [10, 20, 30]).buffer = [20, 30] ∧
    10 ∉ ((ReplayBuffer.make ℕ 2).pushAll [10, 20, 30]).buffer :=
  (replay_capacity_and_fifo ℕ 2 10 [20, 30] (by rfl) (by decide)).2

end SchedulingOptimizer

namespace SchedulingOptimizer

/-- Source: `self.epsilon = 1.0` (`SchedulingOptimizer.__init__`, line 83). -/
def epsilon0 : ℚ := 1

/-- Source: `self.epsilon_decay = 0.995` (`SchedulingOptimizer.__init__`, line 84). -/
def epsilonDecay : ℚ := 995 / 1000

/-- Source: `self.epsilon_min = 0.01` (`SchedulingOptimizer.__init__`, line 85). -/
def epsilonMin : ℚ := 1 / 100

/-- Source: `self.tau = 0.005` (`SchedulingOptimizer.__init__`, line 87). -/
def tau : ℚ := 5 / 1000

/-- Source: `self.batch_size = 64` (`SchedulingOptimizer.__init__`, line 88). -/
def batchSize : Nat := 64

/-- The epsilon update executed at the end of every updating training
step (`SchedulingOptimizer.train_step`, lines 350-351):
`if self.epsilon > self.epsilon_min: self.epsilon *= self.epsilon_decay`. -/
def epsilonStep (e : ℚ) : ℚ := if epsilonMin < e then e * epsilonDecay else e

/-- The exploration rate after `n` updating training steps, starting from
the configured initial value `epsilon0 = 1.0`. -/
def epsilonAfter (n : Nat) : ℚ := epsilonStep^[n] epsilon0

theorem epsilonAfter_succ (n : Nat) :
    epsilonAfter (n + 1) = epsilonStep (epsilonAfter n) := by
  unfold epsilonAfter
  rw [Function.iterate_succ_apply']

theorem epsilonAfter_eq_pow (n : Nat)
    (h : ∀ k < n, epsilonMin < epsilonDecay ^ k) :
    epsilonAfter n = epsilonDecay ^ n := by
  induction n with
  | zero => rfl
  | succ m ih =>
    rw [epsilonAfter_succ, ih (fun k hk => h k (Nat.lt_succ_of_lt hk)),
      epsilonStep, if_pos (h m (Nat.lt_succ_self m)), pow_succ]

/--
C4 counterexample: the epsilon update does not clamp at the floor — it
multiplies whenever epsilon is still above the floor, so the first value
at or below `epsilon_min` actually lands strictly below it.  Concretely,
after 919 updating training steps from the configured initial value 1.0,
epsilon equals `0.995 ^ 919 ≈ 0.009986`, strictly below the configured
floor `epsilon_min = 0.01`.
-/
theorem epsilon_falls_below_floor : epsilonAfter 919 < epsilonMin := by
  have h918 : epsilonMin < epsilonDecay ^ 918 := by
    unfold epsilonMin epsilonDecay
    norm_num
  have heq : epsilonAfter 919 = epsilonDecay ^ 919 := by
    apply epsilonAfter_eq_pow
    intro k hk
    refine lt_of_lt_of_le h918 ?_
    apply pow_le_pow_of_le_one (by norm_num [epsilonDecay])
      (by norm_num [epsilonDecay])
    omega
  rw [heq]
  unfold epsilonMin epsilonDecay
  norm_num

/--
C4 amended: across every sequence of updating training steps the
exploration rate is non-increasing, and it never falls below
`epsilon_min * epsilon_decay` — one decay factor under the configured
floor.  It is not bounded below by `epsilon_min` itself: the final decay
step can land in `[epsilon_min * epsilon_decay, epsilon_min)`, after
which epsilon never changes again.
-/
theorem epsilon_monotone_and_bounded (n : Nat) :
    epsilonAfter (n + 1) ≤ epsilonAfter n ∧
    epsilonMin * epsilonDecay ≤ epsilonAfter n := by
  have hlow : ∀ m : Nat, epsilonMin * epsilonDecay ≤ epsilonAfter m := by
    intro m
    induction m with
    | zero => norm_num [epsilonAfter, epsilon0, epsilonMin, epsilonDecay]
    | succ k ih =>
      rw [epsilonAfter_succ, epsilonStep]
      by_cases h : epsilonMin < epsilonAfter k
      · rw [if_pos h]
        exact mul_le_mul_of_nonneg_right (le_of_lt h)
          (by norm_num [epsilonDecay])
      · rw [if_neg h]
        exact ih
  refine ⟨?_, hlow n⟩
  rw [epsilonAfter_succ, epsilonStep]
  by_cases h : epsilonMin < epsilonAfter n
  · rw [if_pos h]
    have hnn : 0 ≤ epsilonAfter n :=
      le_trans (by norm_num [epsilonMin, epsilonDecay]) (hlow n)
    exact mul_le_of_le_one_right hnn (by norm_num [epsilonDecay])
  · rw [if_neg h]

end SchedulingOptimizer

namespace SchedulingOptimizer

/-- The mutable training state of `SchedulingOptimizer` touched by
`train_step`: the online Q-network parameters, the target network
parameters, the exploration rate, and the replay memory.  Network
parameters are modelled as flat lists of scalars in the order
`parameters()` yields them. -/
structure OptimizerState where
  qNetwork : List ℚ
  targetNetwork : List ℚ
  epsilon : ℚ
  memory : ReplayBuffer Experience
deriving DecidableEq

/-- Source: `SchedulingOptimizer._soft_update` (lines 359-366):
`target_param.data.copy_(self.tau * local_param.data + (1.0 - self.tau) * target_param.data)`
for each parameter pair produced by zipping the two networks. -/
def softUpdate (online target : List ℚ) : List ℚ :=
  List.zipWith (fun o t => tau * o + (1 - tau) * t) online target

/-- Source: `SchedulingOptimizer.train_step` (lines 312-357).  The torch parts —
minibatch sampling, the TD loss, backprop, gradient clipping and the Adam
step, together with the reported loss and mean-Q scalars — are modelled
by the explicit parameters `gradUpdate`, `lossVal` and `qMean`.  The
control flow follows the code: if the memory holds fewer than
`batch_size` experiences the step returns the empty metrics dict `{}` and
changes nothing; otherwise the online network is updated, the target
network is soft-updated from the *new* online parameters, epsilon decays,
and the metrics dict (with the post-decay epsilon) is returned. -/
def trainStep (gradUpdate : List ℚ → List ℚ) (lossVal qMean : ℚ)
    (s : OptimizerState) : OptimizerState × List (String × ℚ) :=
  if s.memory.buffer.length < batchSize then (s, [])
  else
    ({ qNetwork := gradUpdate s.qNetwork,
       targetNetwork := softUpdate (gradUpdate s.qNetwork) s.targetNetwork,
       epsilon := epsilonStep s.epsilon,
       memory := s.memory },
     [("loss", lossVal), ("epsilon", epsilonStep s.epsilon),
      ("q_mean", qMean)])

theorem zipWith_getElem? (f : ℚ → ℚ → ℚ) (as bs : List ℚ) (i : Nat)
    (a b : ℚ) (ha : as[i]? = some a) (hb : bs[i]? = some b) :
    (List.zipWith f as bs)[i]? = some (f a b) := by
  induction as generalizing bs i with
  | nil => simp at ha
  | cons x xs ih =>
    cases bs with
    | nil => simp at hb
    | cons y ys =>
      cases i with
      | zero =>
        simp at ha hb
        simp [ha, hb]
      | succ j =>
        simp at ha hb ⊢
        exact ih ys j ha hb

/--
C10: whenever the Experience Store holds fewer experiences than the
configured batch size, `train_step` returns the empty metrics dict and
leaves the whole optimizer state — online Q-network, target network,
epsilon and memory — unchanged.
-/
theorem train_step_noop_below_batch (gradUpdate : List ℚ → List ℚ)
    (lossVal qMean : ℚ) (s : OptimizerState)
    (h : s.memory.buffer.length < batchSize) :
    trainStep gradUpdate lossVal qMean s = (s, []) := by
  unfold trainStep
  rw [if_pos h]

/-- Witness for C10 on a fresh optimizer state with an empty memory. -/
theorem train_step_noop_below_batch_witness :
    trainStep id 0 0
        ⟨[1], [2], 1, ⟨50000, []⟩⟩ =
      (⟨[1], [2], 1, ⟨50000, []⟩⟩, []) :=
  train_step_noop_below_batch id 0 0 ⟨[1], [2], 1, ⟨50000, []⟩⟩
    (by simp [batchSize])

/--
C6: every training step that performs an update (memory at least
`batch_size`) soft-updates the target network so that, componentwise for
every parameter index, `target' = τ·online' + (1−τ)·target`, where
`online'` is the online Q-network parameter after this step's gradient
update; the online network ends at exactly `gradUpdate` of its previous
value (no hard swap of the target network ever occurs).
-/
theorem train_step_soft_update (gradUpdate : List ℚ → List ℚ)
    (lossVal qMean : ℚ) (s : OptimizerState)
    (h : batchSize ≤ s.memory.buffer.length) :
    (trainStep gradUpdate lossVal qMean s).1.qNetwork =
      gradUpdate s.qNetwork ∧
    (trainStep gradUpdate lossVal qMean s).1.targetNetwork =
      softUpdate (gradUpdate s.qNetwork) s.targetNetwork ∧
    ∀ (i : Nat) (o t : ℚ), (gradUpdate s.qNetwork)[i]? = some o →
      s.targetNetwork[i]? = some t →
      ((trainStep gradUpdate lossVal qMean s).1.targetNetwork)[i]? =
        some (tau * o + (1 - tau) * t) := by
  have hnot : ¬ s.memory.buffer.length < batchSize := by omega
  unfold trainStep
  rw [if_neg hnot]
  refine ⟨rfl, rfl, ?_⟩
  intro i o t ho ht
  exact zipWith_getElem? _ _ _ i o t ho ht

/-- Witness for C6 on a one-parameter network with a full memory:
`0.005 * 1 + 0.995 * 3 = 2.99`. -/
theorem train_step_soft_update_witness :
    ((trainStep id 0 0
        ⟨[1], [3], 1, ⟨50000, List.replicate 64 ⟨[], 0, 0, [], false⟩⟩⟩
      ).1.targetNetwork)[0]? = some (299 / 100) := by
  have h := (train_step_soft_update id 0 0
      ⟨[1], [3], 1, ⟨50000, List.replicate 64 ⟨[], 0, 0, [], false⟩⟩⟩
      (by simp [batchSize])).2.2 0 1 3 rfl rfl
  rw [h]
  norm_num [tau]

/-- A transfer-queue entry as passed to `get_optimal_schedule`
(its fields are not consulted by the decision logic). -/
structure QueueItem where
  priority : String
  sizeGb : ℚ
  status : String
deriving DecidableEq

/-- The record returned by `SchedulingOptimizer.get_optimal_schedule`
(lines 294-302); time is counted in hours, so `scheduled_time`
(`current_time + timedelta(hours=action)`) is `currentTime + action` and
the hour of day is `currentTime % 24`.  The `reasoning` string is a
formatting of `scheduled_time` and the priority and is omitted. -/
structure ScheduleResult where
  action : Nat
  scheduledTime : Nat
  scheduledHour : Nat
  delayHours : Nat
  confidence : ℚ
  exploration : Bool
deriving DecidableEq

/-- Source: `random.choice(l)`: an element of `l` selected by the global RNG,
modelled as an explicit `rng` argument. -/
def randomChoice (l : List Nat) (rng : Nat) : Nat := l.getD (rng % l.length) 0

/-- Source: `SchedulingOptimizer.get_optimal_schedule` (lines 269-302): action 0
(immediate) by default and for critical priority; for low priority during
business hours (9-17) the action is `random.choice([6, 7, 8, 9, 10])`;
the trained DQN is not consulted. -/
def getOptimalSchedule (currentTime : Nat)
    (networkMetrics systemMetrics : List (String × ℚ))
    (transferQueue : List QueueItem) (transferPriority : String)
    (rng : Nat) : ScheduleResult :=
  let action : Nat :=
    if transferPriority = "critical" then 0
    else if transferPriority = "low" then
      if 9 ≤ currentTime % 24 ∧ currentTime % 24 ≤ 17 then
        randomChoice [6, 7, 8, 9, 10] rng
      else 0
    else 0
  { action := action,
    scheduledTime := currentTime + action,
    scheduledHour := (currentTime + action) % 24,
    delayHours := action,
    confidence := 8 / 10,
    exploration := false }

/--
C8 counterexample: at the fixed input (hour 10 of the day, low priority,
empty metrics and queue) the decision depends on the RNG: one RNG state
yields action 6 (scheduled time 16), another yields action 7 (scheduled
time 17), so two invocations at the same input can return different
actions and scheduled times — `get_optimal_schedule` is not
deterministic on this input.
-/
theorem schedule_not_deterministic :
    (getOptimalSchedule 10 [] [] [] "low" 0).action = 6 ∧
    (getOptimalSchedule 10 [] [] [] "low" 1).action = 7 ∧
    (getOptimalSchedule 10 [] [] [] "low" 0).scheduledTime = 16 ∧
    (getOptimalSchedule 10 [] [] [] "low" 1).scheduledTime = 17 ∧
    getOptimalSchedule 10 [] [] [] "low" 0 ≠
      getOptimalSchedule 10 [] [] [] "low" 1 := by
  refine ⟨rfl, rfl, rfl, rfl, ?_⟩
  intro h
  have := congrArg ScheduleResult.action h
  simp [getOptimalSchedule, randomChoice] at this

/--
C8 amended: `get_optimal_schedule` is deterministic (independent of the
RNG state) for every input except when the transfer priority is `'low'`
and the current hour lies in business hours 9-17; on that one branch the
action is drawn at random from `{6, 7, 8, 9, 10}`.  In all other cases
the result does not depend on the RNG (and the action is 0).
-/
theorem schedule_deterministic_otherwise (currentTime : Nat)
    (networkMetrics systemMetrics : List (String × ℚ))
    (transferQueue : List QueueItem) (transferPriority : String)
    (rng1 rng2 : Nat)
    (h : ¬(transferPriority = "low" ∧
      9 ≤ currentTime % 24 ∧ currentTime % 24 ≤ 17)) :
    getOptimalSchedule currentTime networkMetrics systemMetrics
        transferQueue transferPriority rng1 =
      getOptimalSchedule currentTime networkMetrics systemMetrics
        transferQueue transferPriority rng2 := by
  by_cases hc : transferPriority = "critical"
  · simp [getOptimalSchedule, hc]
  · by_cases hl : transferPriority = "low"
    · have hb : ¬(9 ≤ currentTime % 24 ∧ currentTime % 24 ≤ 17) :=
        fun hh => h ⟨hl, hh⟩
      simp [getOptimalSchedule, hc, hl, hb]
    · simp [getOptimalSchedule, hc, hl]

/-- Witness for the amended C8: a high-priority request at hour 10 gets
the same decision under two different RNG states. -/
theorem schedule_deterministic_otherwise_witness :
    getOptimalSchedule 10 [] [] [] "high" 0 =
      getOptimalSchedule 10 [] [] [] "high" 99 :=
  schedule_deterministic_otherwise 10 [] [] [] "high" 0 99
    (by simp)

/--
C2: neither operation checks for a trained model.  On a freshly
constructed, untrained service, `get_optimal_schedule` returns a numeric
schedule (action 0, scheduled immediately) instead of failing with a
"model not ready" error, and `allocate_resources` computes numeric
bandwidth allocations directly from whatever the randomly initialized
actor outputs (here `[3/10, 2/5, 1/5]` for three agents with total
bandwidth 1000) instead of failing.
-/
theorem untrained_service_returns_results :
    (getOptimalSchedule 12 [] [] [] "medium" 0).action = 0 ∧
    (getOptimalSchedule 12 [] [] [] "medium" 0).scheduledTime = 12 ∧
    ResourceAllocator.bandwidthAllocations 3 [3/10, 2/5, 1/5] 1000 =
      [300, 400, 200] := by
  refine ⟨rfl, rfl, ?_⟩
  rw [ResourceAllocator.bandwidthAllocations_eq_take]
  norm_num

end SchedulingOptimizer
